import Mathlib

/-!
Verification development for the Disney material of rs_pbrt
(`src/materials/disney.rs`).

The embedding models the `Float` scalars of the Rust code as real numbers
(exact arithmetic); texture evaluation is abstracted by quantifying over the
values the textures take at the shading point.  Helper functions that live in
other modules of the repository (`core/geometry.rs`, `core/reflection.rs`,
`core/pbrt.rs`) are modelled from the spec and marked as such.
-/

namespace RsPbrt

/-- A 3-component direction vector (`Vector3f` in `core/geometry.rs`),
modelled with real components. -/
structure Vector3f where
  x : ℝ
  y : ℝ
  z : ℝ

namespace Vector3f

/-- Modelled from the spec: component-wise vector addition. -/
noncomputable def add (a b : Vector3f) : Vector3f := ⟨a.x + b.x, a.y + b.y, a.z + b.z⟩

/-- Modelled from the spec: component-wise vector negation. -/
noncomputable def neg (a : Vector3f) : Vector3f := ⟨-a.x, -a.y, -a.z⟩

/-- Modelled from the spec: scalar multiplication of a vector. -/
noncomputable def smul (t : ℝ) (a : Vector3f) : Vector3f := ⟨t * a.x, t * a.y, t * a.z⟩

noncomputable instance : Add Vector3f := ⟨add⟩
noncomputable instance : Neg Vector3f := ⟨neg⟩

/-- The zero vector. -/
noncomputable def zero : Vector3f := ⟨0, 0, 0⟩

/-- Directions are unit vectors in the local shading frame. -/
def IsUnit (w : Vector3f) : Prop := w.x ^ 2 + w.y ^ 2 + w.z ^ 2 = 1

end Vector3f

/-- Modelled from the spec: dot product of two vectors
(`vec3_dot_vec3` in `core/geometry.rs`). -/
noncomputable def vec3_dot_vec3 (a b : Vector3f) : ℝ := a.x * b.x + a.y * b.y + a.z * b.z

/-- Modelled from the spec: Euclidean length of a vector. -/
noncomputable def Vector3f.length (a : Vector3f) : ℝ :=
  Real.sqrt (vec3_dot_vec3 a a)

/-- Modelled from the spec: normalization `v / v.length()`. -/
noncomputable def Vector3f.normalize (a : Vector3f) : Vector3f :=
  ⟨a.x / a.length, a.y / a.length, a.z / a.length⟩

/-- Modelled from the spec: `abs_cos_theta(w) = |w.z|`, the absolute cosine
of the angle to the shading normal in the local frame. -/
noncomputable def abs_cos_theta (w : Vector3f) : ℝ := |w.z|

/-- Modelled from the spec: two directions lie in the same hemisphere of the
shading frame when their z components have the same strict sign
(`vec3_same_hemisphere_vec3`). -/
def vec3_same_hemisphere_vec3 (w wp : Vector3f) : Prop := w.z * wp.z > 0

noncomputable instance (w wp : Vector3f) :
    Decidable (vec3_same_hemisphere_vec3 w wp) := by
  unfold vec3_same_hemisphere_vec3; infer_instance

/-- Modelled from the spec: mirror reflection of `wo` about the normal `n`,
`reflect(wo, n) = -wo + 2 (wo . n) n`. -/
noncomputable def reflect (wo n : Vector3f) : Vector3f :=
  Vector3f.add (Vector3f.neg wo) (Vector3f.smul (2 * vec3_dot_vec3 wo n) n)

/-- Modelled from the spec: spherical direction from sine and cosine of the
polar angle and the azimuth, `(sin t cos p, sin t sin p, cos t)`. -/
noncomputable def spherical_direction (sin_theta cos_theta phi : ℝ) :
    Vector3f :=
  ⟨sin_theta * Real.cos phi, sin_theta * Real.sin phi, cos_theta⟩

/-- A 2D sample point (`Point2f`), with `u[0]`, `u[1]` as the fields. -/
structure Point2f where
  x : ℝ
  y : ℝ

/-- Modelled from the spec: an RGB tristimulus `Spectrum` with component-wise
arithmetic. -/
structure Spectrum where
  c0 : ℝ
  c1 : ℝ
  c2 : ℝ

namespace Spectrum

/-- The constant spectrum (`Spectrum::from(v)` / `Spectrum::new(v)`). -/
noncomputable def const (v : ℝ) : Spectrum := ⟨v, v, v⟩

noncomputable instance : Add Spectrum := ⟨fun a b => ⟨a.c0 + b.c0, a.c1 + b.c1, a.c2 + b.c2⟩⟩

/-- Component-wise product of two spectra. -/
noncomputable instance : Mul Spectrum := ⟨fun a b => ⟨a.c0 * b.c0, a.c1 * b.c1, a.c2 * b.c2⟩⟩

/-- Scalar times spectrum. -/
noncomputable instance : HMul ℝ Spectrum Spectrum :=
  ⟨fun t s => ⟨t * s.c0, t * s.c1, t * s.c2⟩⟩

/-- Spectrum times scalar. -/
noncomputable instance : HMul Spectrum ℝ Spectrum :=
  ⟨fun s t => ⟨s.c0 * t, s.c1 * t, s.c2 * t⟩⟩

/-- Spectrum divided by a scalar. -/
noncomputable instance : HDiv Spectrum ℝ Spectrum :=
  ⟨fun s t => ⟨s.c0 / t, s.c1 / t, s.c2 / t⟩⟩

/-- Modelled from the spec: clamping of a spectrum to `[0, ∞)` component-wise
(the factory calls `clamp(0.0, f32::INFINITY)`). -/
noncomputable def clampZero (s : Spectrum) : Spectrum :=
  ⟨max 0 s.c0, max 0 s.c1, max 0 s.c2⟩

/-- Modelled from the spec: luminance extraction `y()`, the CIE-weighted sum
of the RGB components. -/
noncomputable def lum (s : Spectrum) : ℝ :=
  0.212671 * s.c0 + 0.715160 * s.c1 + 0.072106 * s.c2

/-- Modelled from the spec: component-wise square root. -/
noncomputable def sqrtS (s : Spectrum) : Spectrum :=
  ⟨Real.sqrt s.c0, Real.sqrt s.c1, Real.sqrt s.c2⟩

/-- Modelled from the spec: a spectrum is black when every component is 0
(`is_black`). -/
def isBlack (s : Spectrum) : Prop := s.c0 = 0 ∧ s.c1 = 0 ∧ s.c2 = 0

noncomputable instance (s : Spectrum) : Decidable (isBlack s) := by
  unfold isBlack; infer_instance

/-- Component-wise non-negativity of a spectrum. -/
def NonNeg (s : Spectrum) : Prop := 0 ≤ s.c0 ∧ 0 ≤ s.c1 ∧ 0 ≤ s.c2

/-- Modelled from the spec: linear interpolation of spectra,
`lerp(t, a, b) = (1 - t) a + t b` component-wise. -/
noncomputable def lerpS (t : ℝ) (a b : Spectrum) : Spectrum :=
  ⟨(1 - t) * a.c0 + t * b.c0, (1 - t) * a.c1 + t * b.c1,
   (1 - t) * a.c2 + t * b.c2⟩

end Spectrum

/-- Modelled from the spec: scalar linear interpolation
`lerp(t, a, b) = (1 - t) a + t b` (`core/pbrt.rs`). -/
noncomputable def lerp (t a b : ℝ) : ℝ := (1 - t) * a + t * b

/-- Modelled from the spec: `clamp_t(val, low, high)` clamps `val` into
`[low, high]` (`core/pbrt.rs`). -/
noncomputable def clamp_t (val low high : ℝ) : ℝ :=
  if val < low then low else if val > high then high else val

/-- `sqr(x) = x * x`, from `materials/disney.rs`. -/
noncomputable def sqr (x : ℝ) : ℝ := x * x

/-- `schlick_weight(cos_theta) = m^5` with `m = clamp(1 - cos_theta, 0, 1)`,
from `materials/disney.rs`. -/
noncomputable def schlick_weight (cos_theta : ℝ) : ℝ :=
  let m := clamp_t (1 - cos_theta) 0 1
  (m * m) * (m * m) * m

/-- `schlick_r0_from_eta(eta) = (eta - 1)^2 / (eta + 1)^2`, from
`materials/disney.rs`. -/
noncomputable def schlick_r0_from_eta (eta : ℝ) : ℝ := sqr (eta - 1) / sqr (eta + 1)

/-- Modelled from the spec: the Schlick Fresnel approximation
`R = R0 + (1 - R0)(1 - cos)^5`, i.e. `lerp(schlick_weight(cos), r0, 1)`
(`fr_schlick` in `core/reflection.rs`). -/
noncomputable def fr_schlick (r0 cos_theta : ℝ) : ℝ := lerp (schlick_weight cos_theta) r0 1

/-- `gtr1(cos_theta, alpha)`, the GTR1 normal distribution of
`materials/disney.rs`; `log10` is the base-10 logarithm. -/
noncomputable def gtr1 (cos_theta alpha : ℝ) : ℝ :=
  let alpha2 := alpha * alpha
  (alpha2 - 1) /
    (Real.pi * Real.logb 10 alpha2 *
      (1 + (alpha2 - 1) * cos_theta * cos_theta))

/-- `smith_g_ggx(cos_theta, alpha)` from `materials/disney.rs`. -/
noncomputable def smith_g_ggx (cos_theta alpha : ℝ) : ℝ :=
  let alpha2 := alpha * alpha
  let cos_theta2 := cos_theta * cos_theta
  1 / (cos_theta + Real.sqrt (alpha2 + cos_theta2 - alpha2 * cos_theta2))

/-- The `DisneyDiffuse` lobe (`materials/disney.rs`): weight spectrum `r` and
optional uniform scale. -/
structure DisneyDiffuse where
  r : Spectrum
  sc_opt : Option Spectrum

/-- `DisneyDiffuse::f` from `materials/disney.rs`. -/
noncomputable def DisneyDiffuse.f (self : DisneyDiffuse) (wo wi : Vector3f) :
    Spectrum :=
  let fo := schlick_weight (abs_cos_theta wo)
  let fi := schlick_weight (abs_cos_theta wi)
  match self.sc_opt with
  | some sc => sc * self.r * Real.pi⁻¹ * (1 - fo / 2) * (1 - fi / 2)
  | none => self.r * Real.pi⁻¹ * (1 - fo / 2) * (1 - fi / 2)

/-- The `DisneyFakeSS` lobe (`materials/disney.rs`). -/
structure DisneyFakeSS where
  r : Spectrum
  roughness : ℝ
  sc_opt : Option Spectrum

/-- `DisneyFakeSS::f` from `materials/disney.rs`. -/
noncomputable def DisneyFakeSS.f (self : DisneyFakeSS) (wo wi : Vector3f) :
    Spectrum :=
  let wh0 := Vector3f.add wi wo
  if wh0.x = 0 ∧ wh0.y = 0 ∧ wh0.z = 0 then Spectrum.const 0
  else
    let wh := wh0.normalize
    let cos_theta_d := vec3_dot_vec3 wi wh
    let fss90 := cos_theta_d * cos_theta_d * self.roughness
    let fo := schlick_weight (abs_cos_theta wo)
    let fi := schlick_weight (abs_cos_theta wi)
    let fss := lerp fo 1 fss90 * lerp fi 1 fss90
    let ss := 1.25 * (fss * (1 / (abs_cos_theta wo + abs_cos_theta wi) - 0.5)
      + 0.5)
    match self.sc_opt with
    | some sc => sc * self.r * Real.pi⁻¹ * ss
    | none => self.r * Real.pi⁻¹ * ss

/-- The `DisneyRetro` lobe (`materials/disney.rs`). -/
structure DisneyRetro where
  r : Spectrum
  roughness : ℝ
  sc_opt : Option Spectrum

/-- `DisneyRetro::f` from `materials/disney.rs`. -/
noncomputable def DisneyRetro.f (self : DisneyRetro) (wo wi : Vector3f) :
    Spectrum :=
  let wh0 := Vector3f.add wi wo
  if wh0.x = 0 ∧ wh0.y = 0 ∧ wh0.z = 0 then Spectrum.const 0
  else
    let wh := wh0.normalize
    let cos_theta_d := vec3_dot_vec3 wi wh
    let fo := schlick_weight (abs_cos_theta wo)
    let fi := schlick_weight (abs_cos_theta wi)
    let rr := 2 * self.roughness * cos_theta_d * cos_theta_d
    match self.sc_opt with
    | some sc => sc * self.r * Real.pi⁻¹ * rr * (fo + fi + fo * fi * (rr - 1))
    | none => self.r * Real.pi⁻¹ * rr * (fo + fi + fo * fi * (rr - 1))

/-- The `DisneySheen` lobe (`materials/disney.rs`). -/
structure DisneySheen where
  r : Spectrum
  sc_opt : Option Spectrum

/-- `DisneySheen::f` from `materials/disney.rs`. -/
noncomputable def DisneySheen.f (self : DisneySheen) (wo wi : Vector3f) :
    Spectrum :=
  let wh0 := Vector3f.add wi wo
  if wh0.x = 0 ∧ wh0.y = 0 ∧ wh0.z = 0 then Spectrum.const 0
  else
    let wh := wh0.normalize
    let cos_theta_d := vec3_dot_vec3 wi wh
    match self.sc_opt with
    | some sc => sc * self.r * schlick_weight cos_theta_d
    | none => self.r * schlick_weight cos_theta_d

/-- The `DisneyClearCoat` lobe (`materials/disney.rs`): scalar weight, gloss,
optional uniform scale. -/
structure DisneyClearCoat where
  weight : ℝ
  gloss : ℝ
  sc_opt : Option Spectrum

/-- `DisneyClearCoat::f` from `materials/disney.rs`. -/
noncomputable def DisneyClearCoat.f (self : DisneyClearCoat)
    (wo wi : Vector3f) : Spectrum :=
  let wh0 := Vector3f.add wi wo
  if wh0.x = 0 ∧ wh0.y = 0 ∧ wh0.z = 0 then Spectrum.const 0
  else
    let wh := wh0.normalize
    let dr := gtr1 (abs_cos_theta wh) self.gloss
    let fr := fr_schlick 0.04 (vec3_dot_vec3 wo wh)
    let gr := smith_g_ggx (abs_cos_theta wo) 0.25 *
      smith_g_ggx (abs_cos_theta wi) 0.25
    match self.sc_opt with
    | some sc => sc * Spectrum.const (self.weight * gr * fr * dr / 4)
    | none => Spectrum.const (self.weight * gr * fr * dr / 4)

/-- `DisneyClearCoat::pdf` from `materials/disney.rs`. -/
noncomputable def DisneyClearCoat.pdf (self : DisneyClearCoat)
    (wo wi : Vector3f) : ℝ :=
  if ¬ vec3_same_hemisphere_vec3 wo wi then 0
  else
    let wh0 := Vector3f.add wo wi
    if wh0.x = 0 ∧ wh0.y = 0 ∧ wh0.z = 0 then 0
    else
      let wh := wh0.normalize
      let dr := gtr1 (abs_cos_theta wh) self.gloss
      dr * abs_cos_theta wh / (4 * vec3_dot_vec3 wo wh)

/-- The half vector that `DisneyClearCoat::sample_f` samples from the GTR1
distribution (after flipping it into `wo`'s hemisphere). -/
noncomputable def DisneyClearCoat.sampledWh (self : DisneyClearCoat)
    (wo : Vector3f) (u : Point2f) : Vector3f :=
  let alpha2 := self.gloss * self.gloss
  let cos_theta := Real.sqrt
    (max 0 ((1 - Real.rpow alpha2 (1 - u.x)) / (1 - alpha2)))
  let sin_theta := Real.sqrt (max 0 (1 - cos_theta * cos_theta))
  let phi := 2 * Real.pi * u.y
  let wh := spherical_direction sin_theta cos_theta phi
  if ¬ vec3_same_hemisphere_vec3 wo wh then Vector3f.neg wh else wh

/-- The candidate incident direction of `DisneyClearCoat::sample_f`:
the reflection of `wo` about the sampled half vector. -/
noncomputable def DisneyClearCoat.sampledWi (self : DisneyClearCoat)
    (wo : Vector3f) (u : Point2f) : Vector3f :=
  reflect wo (self.sampledWh wo u)

/-- `DisneyClearCoat::sample_f` from `materials/disney.rs`, with the `wi` and
`pdf` out-parameters made explicit: the arguments `wi` and `pdf` are the
values those locations hold before the call, and the result triple is
(returned spectrum, final `wi`, final `pdf`). -/
noncomputable def DisneyClearCoat.sample_f (self : DisneyClearCoat)
    (wo wi : Vector3f) (u : Point2f) (pdf : ℝ) : Spectrum × Vector3f × ℝ :=
  if wo.z = 0 then (Spectrum.const 0, wi, pdf)
  else
    let wi2 := self.sampledWi wo u
    if ¬ vec3_same_hemisphere_vec3 wo wi2 then (Spectrum.const 0, wi2, pdf)
    else
      let pdf2 := self.pdf wo wi2
      match self.sc_opt with
      | some sc => (sc * self.f wo wi2, wi2, pdf2)
      | none => (self.f wo wi2, wi2, pdf2)

/-- `TrowbridgeReitzDistribution` parameters. Modelled from the spec:
(alphax, alphay, visible-normal-sampling flag), the alphas floor-clamped
to 0.001 by the constructor. -/
structure TrowbridgeReitzDistribution where
  alpha_x : ℝ
  alpha_y : ℝ
  sample_visible_area : Bool

/-- Modelled from the spec: `TrowbridgeReitzDistribution::new`, clamping the
alphas to at least 0.001. -/
noncomputable def TrowbridgeReitzDistribution.create (ax ay : ℝ)
    (samplevis : Bool) : TrowbridgeReitzDistribution :=
  ⟨max 0.001 ax, max 0.001 ay, samplevis⟩

/-- `DisneyMicrofacetDistribution` wraps a Trowbridge-Reitz distribution with
visible-normal sampling (`materials/disney.rs`). -/
structure DisneyMicrofacetDistribution where
  inner : TrowbridgeReitzDistribution

/-- `DisneyMicrofacetDistribution::new` from `materials/disney.rs`. -/
noncomputable def DisneyMicrofacetDistribution.create (alphax alphay : ℝ) :
    DisneyMicrofacetDistribution :=
  ⟨TrowbridgeReitzDistribution.create alphax alphay true⟩

/-- The microfacet distribution handed to a lobe: either the shared Disney
wrapper or a plain Trowbridge-Reitz distribution. -/
inductive MfDistrib
  | disney (d : DisneyMicrofacetDistribution)
  | tr (d : TrowbridgeReitzDistribution)

/-- `DisneyFresnel` parameters (`core/reflection.rs`), as carried by the
microfacet reflection lobe. -/
structure DisneyFresnel where
  cspec0 : Spectrum
  metallic : ℝ
  eta : ℝ

/-- The Fresnel variant used by the factory. -/
inductive Fresnel
  | disney (d : DisneyFresnel)

/-- Transport mode of the scattering query. -/
inductive TransportMode
  | radiance
  | importance

/-- Modelled from the spec: constructor state of a `MicrofacetReflection`
lobe (`core/reflection.rs`). -/
structure MicrofacetReflection where
  r : Spectrum
  distribution : MfDistrib
  fresnel : Fresnel
  sc_opt : Option Spectrum

/-- Modelled from the spec: constructor state of a `MicrofacetTransmission`
lobe (`core/reflection.rs`). -/
structure MicrofacetTransmission where
  t : Spectrum
  distribution : MfDistrib
  eta_a : ℝ
  eta_b : ℝ
  mode : TransportMode
  sc_opt : Option Spectrum

/-- Modelled from the spec: constructor state of a `SpecularTransmission`
lobe (`core/reflection.rs`). -/
structure SpecularTransmission where
  t : Spectrum
  eta_a : ℝ
  eta_b : ℝ
  mode : TransportMode
  sc_opt : Option Spectrum

/-- Modelled from the spec: constructor state of a `LambertianTransmission`
lobe (`core/reflection.rs`). -/
structure LambertianTransmission where
  t : Spectrum
  sc_opt : Option Spectrum

/-- The closed sum of lobe variants (`Bxdf` in `core/reflection.rs`),
restricted to the variants the Disney factory can build. -/
inductive Bxdf
  | DisDiff (d : DisneyDiffuse)
  | DisSS (d : DisneyFakeSS)
  | DisRetro (d : DisneyRetro)
  | DisSheen (d : DisneySheen)
  | DisClearCoat (d : DisneyClearCoat)
  | MicrofacetRefl (m : MicrofacetReflection)
  | MicrofacetTrans (m : MicrofacetTransmission)
  | SpecTrans (s : SpecularTransmission)
  | LambertianTrans (l : LambertianTransmission)

/-- The kind tag of a lobe. -/
inductive BxdfKind
  | diffuse
  | fakeSS
  | retro
  | sheenLobe
  | clearCoat
  | microRefl
  | microTrans
  | specTrans
  | lambertTrans
deriving DecidableEq

/-- The kind tag of a built lobe. -/
def Bxdf.kind : Bxdf → BxdfKind
  | .DisDiff _ => .diffuse
  | .DisSS _ => .fakeSS
  | .DisRetro _ => .retro
  | .DisSheen _ => .sheenLobe
  | .DisClearCoat _ => .clearCoat
  | .MicrofacetRefl _ => .microRefl
  | .MicrofacetTrans _ => .microTrans
  | .SpecTrans _ => .specTrans
  | .LambertianTrans _ => .lambertTrans

attribute [simp] Bxdf.kind

/-- Modelled from the spec: the composite BSDF wrapper (`Bsdf` in
`core/reflection.rs`): a relative eta and the aggregated lobes. -/
structure Bsdf where
  eta : ℝ
  bxdfs : List Bxdf

/-- The texture and parameter values of a `DisneyMaterial` as evaluated at
one shading point: `color.evaluate(si)`, `metallic.evaluate(si)`, and so on,
plus the material's `thin` flag.  Quantifying over this record quantifies
over all materials and shading points at once (the bump map only perturbs
the shading frame before these evaluations). -/
structure DisneyEval where
  color : Spectrum
  metallic : ℝ
  eta : ℝ
  roughness : ℝ
  specular_tint : ℝ
  anisotropic : ℝ
  sheen : ℝ
  sheen_tint : ℝ
  clearcoat : ℝ
  clearcoat_gloss : ℝ
  spec_trans : ℝ
  scatter_distance : Spectrum
  flatness : ℝ
  diff_trans : ℝ
  thin : Bool

/-- The `diffuse_weight` computed at line 106 of `materials/disney.rs`. -/
noncomputable def diffuseWeight (metallic_weight strans : ℝ) : ℝ :=
  (1 - metallic_weight) * (1 - strans)

/-- `DisneyMaterial::compute_scattering_functions` from
`materials/disney.rs`, over the evaluated parameter values.  The Rust
`use_scale`/`sc` pair is exactly the option `scale_opt`, which each push
site passes on as the lobe's `sc_opt`.  The result pairs the returned
`Vec<Bxdf>` (pushes in source order) with the value stored into `si.bsdf`
at line 331. -/
noncomputable def compute_scattering_functions (self : DisneyEval)
    (mode : TransportMode) (scale_opt : Option Spectrum) :
    List Bxdf × Option Bsdf :=
  let c := self.color.clampZero
  let metallic_weight := self.metallic
  let e := self.eta
  let strans := self.spec_trans
  let diffuse_weight := diffuseWeight metallic_weight strans
  let dt := self.diff_trans / 2
  let rough := self.roughness
  let lumv := c.lum
  let c_tint := if lumv > 0 then c / lumv else Spectrum.const 1
  let sheen_weight := self.sheen
  let c_sheen := if sheen_weight > 0 then
      Spectrum.lerpS self.sheen_tint (Spectrum.const 1) c_tint
    else Spectrum.const 0
  let part_diffuse : List Bxdf :=
    if diffuse_weight > 0 then
      (if self.thin then
        let flat := self.flatness
        [Bxdf.DisDiff ⟨diffuse_weight * (1 - flat) * (1 - dt) * c, scale_opt⟩,
         Bxdf.DisSS ⟨diffuse_weight * flat * (1 - dt) * c, rough, scale_opt⟩]
      else
        let sd := self.scatter_distance
        if sd.isBlack then
          [Bxdf.DisDiff ⟨diffuse_weight * c, scale_opt⟩]
        else
          [Bxdf.SpecTrans ⟨Spectrum.const 1, 1, e, mode, scale_opt⟩]) ++
      [Bxdf.DisRetro ⟨diffuse_weight * c, rough, scale_opt⟩] ++
      (if sheen_weight > 0 then
        [Bxdf.DisSheen ⟨diffuse_weight * sheen_weight * c_sheen, scale_opt⟩]
      else [])
    else []
  let aspect := Real.sqrt (1 - self.anisotropic * 0.9)
  let ax := max 0.001 (sqr rough / aspect)
  let ay := max 0.001 (sqr rough * aspect)
  let distrib := DisneyMicrofacetDistribution.create ax ay
  let spec_tint := self.specular_tint
  let cspec0 := Spectrum.lerpS metallic_weight
    (schlick_r0_from_eta e *
      Spectrum.lerpS spec_tint (Spectrum.const 1) c_tint) c
  let fresnel := Fresnel.disney ⟨cspec0, metallic_weight, e⟩
  let part_spec : List Bxdf :=
    [Bxdf.MicrofacetRefl ⟨c, MfDistrib.disney distrib, fresnel, scale_opt⟩]
  let cc := self.clearcoat
  let part_cc : List Bxdf :=
    if cc > 0 then
      [Bxdf.DisClearCoat ⟨cc, lerp self.clearcoat_gloss 0.1 0.001, scale_opt⟩]
    else []
  let part_btdf : List Bxdf :=
    if strans > 0 then
      let t := strans * c.sqrtS
      if self.thin then
        let rscaled := (0.65 * e - 0.35) * rough
        let ax2 := max 0.001 (sqr rscaled / aspect)
        let ay2 := max 0.001 (sqr rscaled * aspect)
        let scaled_distrib := TrowbridgeReitzDistribution.create ax2 ay2 true
        [Bxdf.MicrofacetTrans
          ⟨t, MfDistrib.tr scaled_distrib, 1, e, mode, scale_opt⟩]
      else
        [Bxdf.MicrofacetTrans
          ⟨t, MfDistrib.disney distrib, 1, e, mode, scale_opt⟩]
    else []
  let part_thin : List Bxdf :=
    if self.thin then [Bxdf.LambertianTrans ⟨dt * c, scale_opt⟩] else []
  (part_diffuse ++ part_spec ++ part_cc ++ part_btdf ++ part_thin,
    some ⟨1, []⟩)

/-! ## Helper lemmas -/

lemma smulS_def (t : ℝ) (s : Spectrum) :
    t * s = Spectrum.mk (t * s.c0) (t * s.c1) (t * s.c2) := rfl

lemma mulS_def (a b : Spectrum) :
    a * b = Spectrum.mk (a.c0 * b.c0) (a.c1 * b.c1) (a.c2 * b.c2) := rfl

lemma smulSR_def (s : Spectrum) (t : ℝ) :
    s * t = Spectrum.mk (s.c0 * t) (s.c1 * t) (s.c2 * t) := rfl

lemma clamp01_mem (x : ℝ) : 0 ≤ clamp_t x 0 1 ∧ clamp_t x 0 1 ≤ 1 := by
  unfold clamp_t
  split_ifs with h1 h2 <;> constructor <;> linarith

lemma schlick_weight_mem (t : ℝ) :
    0 ≤ schlick_weight t ∧ schlick_weight t ≤ 1 := by
  obtain ⟨h0, h1⟩ := clamp01_mem (1 - t)
  have he : schlick_weight t =
      clamp_t (1 - t) 0 1 * clamp_t (1 - t) 0 1 *
        (clamp_t (1 - t) 0 1 * clamp_t (1 - t) 0 1) * clamp_t (1 - t) 0 1 :=
    rfl
  rw [he]
  constructor
  · exact mul_nonneg (mul_nonneg (mul_nonneg h0 h0) (mul_nonneg h0 h0)) h0
  · have h2 : clamp_t (1 - t) 0 1 * clamp_t (1 - t) 0 1 ≤ 1 := by nlinarith
    have h4 : clamp_t (1 - t) 0 1 * clamp_t (1 - t) 0 1 *
        (clamp_t (1 - t) 0 1 * clamp_t (1 - t) 0 1) ≤ 1 := by nlinarith
    nlinarith [mul_nonneg (mul_nonneg h0 h0) (mul_nonneg h0 h0)]

/-- The `si.bsdf` slot after the call and the composite BSDF stored there. -/
noncomputable def storedBsdf (ev : DisneyEval) (mode : TransportMode)
    (sc : Option Spectrum) : Option Bsdf :=
  (compute_scattering_functions ev mode sc).2

/-! ## C10 -/

/-- C10: after every call to `compute_scattering_functions` the interaction's
bsdf slot holds some composite BSDF, and that BSDF is always built from the
empty lobe vector (relative eta 1), whatever lobes the call returns; the
returned sequence is the only output carrying the built lobes. -/
theorem c10_bsdf_slot_empty (ev : DisneyEval) (mode : TransportMode)
    (sc : Option Spectrum) :
    (compute_scattering_functions ev mode sc).2 = some ⟨1, []⟩ := by
  rfl

/-! ## C1 -/

/-- C1: the computed `diffuse_weight` equals `(1 - metallic) * (1 - spec_trans)`
and lies in `[0, 1]` whenever `metallic` and `spec_trans` do, and when it is
exactly 0 no Diffuse, FakeSubsurface, Retroreflection or Sheen lobe appears in
the returned lobe sequence. -/
theorem c1_diffuse_weight (ev : DisneyEval) (mode : TransportMode)
    (sc : Option Spectrum) (hm0 : 0 ≤ ev.metallic) (hm1 : ev.metallic ≤ 1)
    (hs0 : 0 ≤ ev.spec_trans) (hs1 : ev.spec_trans ≤ 1) :
    (diffuseWeight ev.metallic ev.spec_trans =
        (1 - ev.metallic) * (1 - ev.spec_trans) ∧
      0 ≤ diffuseWeight ev.metallic ev.spec_trans ∧
      diffuseWeight ev.metallic ev.spec_trans ≤ 1) ∧
    (diffuseWeight ev.metallic ev.spec_trans = 0 →
      ∀ b ∈ (compute_scattering_functions ev mode sc).1,
        b.kind ≠ .diffuse ∧ b.kind ≠ .fakeSS ∧ b.kind ≠ .retro ∧
          b.kind ≠ .sheenLobe) := by
  constructor
  · refine ⟨rfl, ?_, ?_⟩
    · exact mul_nonneg (by linarith) (by linarith)
    · unfold diffuseWeight; nlinarith
  · intro h b hb
    simp only [compute_scattering_functions] at hb
    rw [if_neg (by rw [h]; exact lt_irrefl 0)] at hb
    simp only [List.nil_append, List.mem_append, List.mem_singleton] at hb
    rcases hb with ((hb | hb) | hb) | hb
    · subst hb; simp [Bxdf.kind]
    · split at hb
      · simp only [List.mem_singleton] at hb; subst hb; simp [Bxdf.kind]
      · simp at hb
    · split at hb
      · split at hb
        · simp only [List.mem_singleton] at hb; subst hb; simp [Bxdf.kind]
        · simp only [List.mem_singleton] at hb; subst hb; simp [Bxdf.kind]
      · simp at hb
    · split at hb
      · simp only [List.mem_singleton] at hb; subst hb; simp [Bxdf.kind]
      · simp at hb

/-- Witness for C1 at a concrete material with `metallic = 1`,
`spec_trans = 0`: the diffuse weight is 0 and the single returned lobe is the
microfacet reflection, which is none of the four suppressed kinds. -/
theorem c1_diffuse_weight_witness :
    diffuseWeight 1 0 = (1 - 1) * (1 - 0) ∧
      (∀ b ∈ (compute_scattering_functions
          ⟨Spectrum.const 0.5, 1, 1.5, 0.5, 0, 0, 0, 0.5, 0, 1, 0,
            Spectrum.const 0, 0, 1, false⟩ .radiance none).1,
        b.kind ≠ .diffuse ∧ b.kind ≠ .fakeSS ∧ b.kind ≠ .retro ∧
          b.kind ≠ .sheenLobe) := by
  have h := c1_diffuse_weight
    ⟨Spectrum.const 0.5, 1, 1.5, 0.5, 0, 0, 0, 0.5, 0, 1, 0,
      Spectrum.const 0, 0, 1, false⟩ .radiance none
    (by norm_num) (by norm_num) (by norm_num) (by norm_num)
  exact ⟨h.1.1, h.2 (by norm_num [diffuseWeight])⟩

/-! ## C8 -/

/-- C8: with metallic 0, spec_trans 0, roughness 0.5, color (0.5,0.5,0.5),
thin false, black scatter distance, sheen 0, clearcoat 0 and any diff_trans,
the returned sequence is exactly one Diffuse, one Retroreflection and one
MicrofacetReflection lobe, in that order, and no ClearCoat or transmission
lobe of any sort. -/
theorem c8_scenario_a (dtv : ℝ) (mode : TransportMode) (sc : Option Spectrum) :
    ((compute_scattering_functions
        ⟨Spectrum.const 0.5, 0, 1.5, 0.5, 0, 0, 0, 0.5, 0, 1, 0,
          Spectrum.const 0, 0, dtv, false⟩ mode sc).1).map Bxdf.kind =
      [.diffuse, .retro, .microRefl] := by
  simp only [compute_scattering_functions, diffuseWeight, Spectrum.isBlack,
    Spectrum.clampZero, Spectrum.lum, Spectrum.const]
  norm_num [Bxdf.kind]

/-! ## C4 -/

/-- Counterexample to C4: for a thin material with `diff_trans = 0` and
`flatness = 1` (metallic 0, spec_trans 0, color (0.5,0.5,0.5)) the returned
sequence does contain a LambertianTransmission lobe (with zero weight
spectrum) and a DisneyDiffuse lobe with zero weight spectrum. -/
theorem c4_zero_weight_lobes_emitted :
    Bxdf.LambertianTrans ⟨⟨0, 0, 0⟩, none⟩ ∈
      (compute_scattering_functions
        ⟨Spectrum.const 0.5, 0, 1.5, 0.5, 0, 0, 0, 0.5, 0, 1, 0,
          Spectrum.const 0, 1, 0, true⟩ .radiance none).1 ∧
    Bxdf.DisDiff ⟨⟨0, 0, 0⟩, none⟩ ∈
      (compute_scattering_functions
        ⟨Spectrum.const 0.5, 0, 1.5, 0.5, 0, 0, 0, 0.5, 0, 1, 0,
          Spectrum.const 0, 1, 0, true⟩ .radiance none).1 := by
  simp only [compute_scattering_functions, diffuseWeight, Spectrum.clampZero,
    Spectrum.const, smulS_def]
  norm_num

/-- C4 as amended: the factory guards lobe emission only on
`diffuse_weight > 0`, `sheen > 0`, `clearcoat > 0` and `spec_trans > 0`. For
a thin surface the LambertianTransmission lobe (weight
`(diff_trans/2) * color`) is emitted even when `diff_trans = 0`, and in the
thin diffuse branch the DisneyDiffuse and DisneyFakeSS lobes are both emitted
whatever `flatness` is, so lobes whose governing weight is exactly zero do
appear in the returned sequence. -/
theorem c4_amended_thin_emissions (ev : DisneyEval) (mode : TransportMode)
    (sc : Option Spectrum) (hthin : ev.thin = true) :
    Bxdf.LambertianTrans
        ⟨ev.diff_trans / 2 * ev.color.clampZero, sc⟩ ∈
      (compute_scattering_functions ev mode sc).1 ∧
    (0 < diffuseWeight ev.metallic ev.spec_trans →
      Bxdf.DisDiff
          ⟨diffuseWeight ev.metallic ev.spec_trans * (1 - ev.flatness) *
            (1 - ev.diff_trans / 2) * ev.color.clampZero, sc⟩ ∈
        (compute_scattering_functions ev mode sc).1 ∧
      Bxdf.DisSS
          ⟨diffuseWeight ev.metallic ev.spec_trans * ev.flatness *
            (1 - ev.diff_trans / 2) * ev.color.clampZero, ev.roughness,
            sc⟩ ∈
        (compute_scattering_functions ev mode sc).1) := by
  constructor
  · simp only [compute_scattering_functions, hthin]
    simp [List.mem_append]
  · intro hdw
    simp only [compute_scattering_functions, hthin, if_pos hdw]
    simp [List.mem_append]

/-- Witness for the amended C4 at the counterexample material: thin, with
`diff_trans = 0` and `flatness = 1`, the zero-weight Lambertian transmission
and diffuse lobes are present. -/
theorem c4_amended_thin_emissions_witness :
    Bxdf.LambertianTrans
        ⟨(0:ℝ) / 2 * (Spectrum.const 0.5).clampZero, none⟩ ∈
      (compute_scattering_functions
        ⟨Spectrum.const 0.5, 0, 1.5, 0.5, 0, 0, 0, 0.5, 0, 1, 0,
          Spectrum.const 0, 1, 0, true⟩ .radiance none).1 ∧
    Bxdf.DisDiff
        ⟨diffuseWeight 0 0 * (1 - 1) * (1 - (0:ℝ) / 2) *
          (Spectrum.const 0.5).clampZero, none⟩ ∈
      (compute_scattering_functions
        ⟨Spectrum.const 0.5, 0, 1.5, 0.5, 0, 0, 0, 0.5, 0, 1, 0,
          Spectrum.const 0, 1, 0, true⟩ .radiance none).1 := by
  have h := c4_amended_thin_emissions
    ⟨Spectrum.const 0.5, 0, 1.5, 0.5, 0, 0, 0, 0.5, 0, 1, 0,
      Spectrum.const 0, 1, 0, true⟩ .radiance none rfl
  exact ⟨h.1, (h.2 (by norm_num [diffuseWeight])).1⟩

/-! ## C9 -/

/-- C9: when `spec_trans > 0` and the surface is not thin, the factory emits
a MicrofacetTransmission lobe whose tint is `spec_trans * sqrt(clamped
color)` and whose distribution is the shared Disney anisotropic distribution
built from the unscaled roughness, and no LambertianTransmission lobe is
emitted. -/
theorem c9_microfacet_transmission (ev : DisneyEval) (mode : TransportMode)
    (sc : Option Spectrum) (hst : 0 < ev.spec_trans)
    (hthin : ev.thin = false) :
    Bxdf.MicrofacetTrans
        ⟨ev.spec_trans * ev.color.clampZero.sqrtS,
          MfDistrib.disney (DisneyMicrofacetDistribution.create
            (max 0.001 (sqr ev.roughness /
              Real.sqrt (1 - ev.anisotropic * 0.9)))
            (max 0.001 (sqr ev.roughness *
              Real.sqrt (1 - ev.anisotropic * 0.9)))),
          1, ev.eta, mode, sc⟩ ∈
      (compute_scattering_functions ev mode sc).1 ∧
    ∀ b ∈ (compute_scattering_functions ev mode sc).1,
      b.kind ≠ .lambertTrans := by
  constructor
  · simp only [compute_scattering_functions, hthin, if_pos hst]
    simp [List.mem_append]
  · intro b hb
    simp only [compute_scattering_functions, hthin, Bool.false_eq_true,
      if_false, List.append_nil] at hb
    repeat split at hb
    all_goals aesop

/-- Witness for C9 at Scenario C of the spec (`spec_trans = 0.8`,
`color = (0.25,0.25,0.25)`, thin false): the emitted transmission tint is
`0.8 * sqrt 0.25 = 0.4` per component. -/
theorem c9_microfacet_transmission_witness :
    Bxdf.MicrofacetTrans
        ⟨⟨0.4, 0.4, 0.4⟩,
          MfDistrib.disney (DisneyMicrofacetDistribution.create 0.25 0.25),
          1, 1.5, .radiance, none⟩ ∈
      (compute_scattering_functions
        ⟨Spectrum.const 0.25, 0, 1.5, 0.5, 0, 0, 0, 0.5, 0, 1, 0.8,
          Spectrum.const 0, 0, 1, false⟩ .radiance none).1 := by
  have h := c9_microfacet_transmission
    ⟨Spectrum.const 0.25, 0, 1.5, 0.5, 0, 0, 0, 0.5, 0, 1, 0.8,
      Spectrum.const 0, 0, 1, false⟩ .radiance none (by norm_num) rfl
  have hq : Real.sqrt 0.25 = 0.5 := by
    rw [show (0.25:ℝ) = 0.5 ^ 2 by norm_num,
      Real.sqrt_sq (by norm_num : (0:ℝ) ≤ 0.5)]
  have hq4 : Real.sqrt 4 = 2 := by
    rw [show (4:ℝ) = 2 ^ 2 by norm_num,
      Real.sqrt_sq (by norm_num : (0:ℝ) ≤ 2)]
  have h1 := h.1
  norm_num [hq, hq4, Real.sqrt_one, smulS_def, Spectrum.clampZero,
    Spectrum.const, Spectrum.sqrtS, sqr] at h1 ⊢
  exact h1

/-! ## C7 -/

/-- C7: whenever `wi + wo` is exactly the zero vector, the `f` of
FakeSubsurface, Retroreflection, Sheen and ClearCoat returns the zero
spectrum and `DisneyClearCoat::pdf` returns 0, in each case through the
short-circuit branch, without normalizing the zero vector. -/
theorem c7_zero_half_vector (fss : DisneyFakeSS) (ret : DisneyRetro)
    (sh : DisneySheen) (cc : DisneyClearCoat) (wo wi : Vector3f)
    (h : Vector3f.add wi wo = ⟨0, 0, 0⟩) :
    fss.f wo wi = Spectrum.const 0 ∧ ret.f wo wi = Spectrum.const 0 ∧
      sh.f wo wi = Spectrum.const 0 ∧ cc.f wo wi = Spectrum.const 0 ∧
      cc.pdf wo wi = 0 := by
  have hz : wi.z + wo.z = 0 := by
    have := congrArg Vector3f.z h; simpa [Vector3f.add] using this
  have hpdf : cc.pdf wo wi = 0 := by
    rw [DisneyClearCoat.pdf, if_pos]
    intro hsame
    simp only [vec3_same_hemisphere_vec3] at hsame
    have hwiz : wi.z = -wo.z := by linarith
    rw [hwiz] at hsame
    nlinarith [mul_self_nonneg wo.z]
  refine ⟨?_, ?_, ?_, ?_, hpdf⟩ <;>
    simp [DisneyFakeSS.f, DisneyRetro.f, DisneySheen.f, DisneyClearCoat.f, h]

/-- Witness for C7 at `wo = (1,0,0)`, `wi = (-1,0,0)` (two horizontal unit
directions whose sum is the zero vector) with concrete lobes. -/
theorem c7_zero_half_vector_witness :
    (DisneyFakeSS.mk ⟨1, 1, 1⟩ (1/2) none).f ⟨1, 0, 0⟩ ⟨-1, 0, 0⟩ =
        Spectrum.const 0 ∧
      (DisneyRetro.mk ⟨1, 1, 1⟩ (1/2) none).f ⟨1, 0, 0⟩ ⟨-1, 0, 0⟩ =
        Spectrum.const 0 ∧
      (DisneySheen.mk ⟨1, 1, 1⟩ none).f ⟨1, 0, 0⟩ ⟨-1, 0, 0⟩ =
        Spectrum.const 0 ∧
      (DisneyClearCoat.mk 1 (1/2) none).f ⟨1, 0, 0⟩ ⟨-1, 0, 0⟩ =
        Spectrum.const 0 ∧
      (DisneyClearCoat.mk 1 (1/2) none).pdf ⟨1, 0, 0⟩ ⟨-1, 0, 0⟩ = 0 :=
  c7_zero_half_vector _ _ _ _ _ _ (by norm_num [Vector3f.add])

/-! ## C6 -/

lemma add3_comm (a b : Vector3f) : Vector3f.add a b = Vector3f.add b a := by
  simp only [Vector3f.add, Vector3f.mk.injEq]
  refine ⟨by ring, by ring, by ring⟩

/-- For unit directions, the cosine between `wi` and the normalized half
vector equals the cosine between `wo` and it. -/
lemma dot_half_symm (wo wi : Vector3f) (hwo : wo.IsUnit) (hwi : wi.IsUnit) :
    vec3_dot_vec3 wi (Vector3f.add wi wo).normalize =
      vec3_dot_vec3 wo (Vector3f.add wi wo).normalize := by
  unfold Vector3f.IsUnit at hwo hwi
  simp only [vec3_dot_vec3, Vector3f.normalize, Vector3f.add,
    Vector3f.length]
  rw [← mul_div_assoc, ← mul_div_assoc, ← mul_div_assoc, ← mul_div_assoc,
    ← mul_div_assoc, ← mul_div_assoc, div_add_div_same, div_add_div_same,
    div_add_div_same, div_add_div_same]
  congr 1
  linear_combination hwi - hwo

/-- C6: the Diffuse, FakeSubsurface, Retroreflection and Sheen lobes are
symmetric in their two unit direction arguments: `f(wo, wi) = f(wi, wo)`. -/
theorem c6_f_symmetric (d : DisneyDiffuse) (fss : DisneyFakeSS)
    (ret : DisneyRetro) (sh : DisneySheen) (wo wi : Vector3f)
    (hwo : wo.IsUnit) (hwi : wi.IsUnit) :
    d.f wo wi = d.f wi wo ∧ fss.f wo wi = fss.f wi wo ∧
      ret.f wo wi = ret.f wi wo ∧ sh.f wo wi = sh.f wi wo := by
  have hdot := dot_half_symm wo wi hwo hwi
  refine ⟨?_, ?_, ?_, ?_⟩
  · simp only [DisneyDiffuse.f]
    cases d.sc_opt <;>
      · simp only [mulS_def, smulS_def, smulSR_def, Spectrum.mk.injEq]
        refine ⟨by ring, by ring, by ring⟩
  · simp only [DisneyFakeSS.f]
    rw [add3_comm wo wi]
    split_ifs with hcond
    · rfl
    · rw [hdot]
      cases fss.sc_opt <;>
        · simp only [mulS_def, smulS_def, smulSR_def, lerp,
            Spectrum.mk.injEq]
          refine ⟨by ring, by ring, by ring⟩
  · simp only [DisneyRetro.f]
    rw [add3_comm wo wi]
    split_ifs with hcond
    · rfl
    · rw [hdot]
      cases ret.sc_opt <;>
        · simp only [mulS_def, smulS_def, smulSR_def, Spectrum.mk.injEq]
          refine ⟨by ring, by ring, by ring⟩
  · simp only [DisneySheen.f]
    rw [add3_comm wo wi]
    split_ifs with hcond
    · rfl
    · rw [hdot]

/-- Witness for C6 at `wo = (0,0,1)`, `wi = (1,0,0)` with concrete lobes. -/
theorem c6_f_symmetric_witness :
    (DisneyDiffuse.mk ⟨1, 1, 1⟩ none).f ⟨0, 0, 1⟩ ⟨1, 0, 0⟩ =
        (DisneyDiffuse.mk ⟨1, 1, 1⟩ none).f ⟨1, 0, 0⟩ ⟨0, 0, 1⟩ ∧
      (DisneyFakeSS.mk ⟨1, 1, 1⟩ (1/2) none).f ⟨0, 0, 1⟩ ⟨1, 0, 0⟩ =
        (DisneyFakeSS.mk ⟨1, 1, 1⟩ (1/2) none).f ⟨1, 0, 0⟩ ⟨0, 0, 1⟩ ∧
      (DisneyRetro.mk ⟨1, 1, 1⟩ (1/2) none).f ⟨0, 0, 1⟩ ⟨1, 0, 0⟩ =
        (DisneyRetro.mk ⟨1, 1, 1⟩ (1/2) none).f ⟨1, 0, 0⟩ ⟨0, 0, 1⟩ ∧
      (DisneySheen.mk ⟨1, 1, 1⟩ none).f ⟨0, 0, 1⟩ ⟨1, 0, 0⟩ =
        (DisneySheen.mk ⟨1, 1, 1⟩ none).f ⟨1, 0, 0⟩ ⟨0, 0, 1⟩ :=
  c6_f_symmetric _ _ _ _ _ _ (by norm_num [Vector3f.IsUnit])
    (by norm_num [Vector3f.IsUnit])

/-! ## C5 -/

/-- Non-negativity of an optional scale spectrum. -/
def OptNonNeg : Option Spectrum → Prop
  | none => True
  | some sc => sc.NonNeg

lemma mul_nonneg3 {a b c : ℝ} (ha : 0 ≤ a) (hb : 0 ≤ b) (hc : 0 ≤ c) :
    0 ≤ a * b * c := mul_nonneg (mul_nonneg ha hb) hc

lemma mul_nonneg4 {a b c d : ℝ} (ha : 0 ≤ a) (hb : 0 ≤ b) (hc : 0 ≤ c)
    (hd : 0 ≤ d) : 0 ≤ a * b * c * d := mul_nonneg (mul_nonneg3 ha hb hc) hd

lemma mul_nonneg5 {a b c d e : ℝ} (ha : 0 ≤ a) (hb : 0 ≤ b) (hc : 0 ≤ c)
    (hd : 0 ≤ d) (he : 0 ≤ e) : 0 ≤ a * b * c * d * e :=
  mul_nonneg (mul_nonneg4 ha hb hc hd) he

lemma mul_nonneg6 {a b c d e f : ℝ} (ha : 0 ≤ a) (hb : 0 ≤ b) (hc : 0 ≤ c)
    (hd : 0 ≤ d) (he : 0 ≤ e) (hf : 0 ≤ f) : 0 ≤ a * b * c * d * e * f :=
  mul_nonneg (mul_nonneg5 ha hb hc hd he) hf

lemma unit_abs_z_le_one {w : Vector3f} (h : w.IsUnit) : |w.z| ≤ 1 := by
  unfold Vector3f.IsUnit at h
  rw [abs_le]
  constructor <;> nlinarith [sq_nonneg w.x, sq_nonneg w.y]

lemma dot_self_pos {v : Vector3f} (h : ¬(v.x = 0 ∧ v.y = 0 ∧ v.z = 0)) :
    0 < vec3_dot_vec3 v v := by
  unfold vec3_dot_vec3
  have hnn : (0:ℝ) ≤ v.x * v.x + v.y * v.y + v.z * v.z := by
    nlinarith [mul_self_nonneg v.x, mul_self_nonneg v.y, mul_self_nonneg v.z]
  rcases lt_or_eq_of_le hnn with hlt | heq
  · exact hlt
  · exfalso
    apply h
    refine ⟨?_, ?_, ?_⟩ <;>
      nlinarith [mul_self_nonneg v.x, mul_self_nonneg v.y,
        mul_self_nonneg v.z]

lemma normalize_abs_z_le_one {v : Vector3f}
    (h : ¬(v.x = 0 ∧ v.y = 0 ∧ v.z = 0)) : |v.normalize.z| ≤ 1 := by
  have hd := dot_self_pos h
  have hL : 0 < v.length := Real.sqrt_pos.mpr hd
  have hzle : |v.z| ≤ v.length := by
    rw [Vector3f.length, show vec3_dot_vec3 v v =
      v.x * v.x + v.y * v.y + v.z * v.z from rfl]
    calc |v.z| = Real.sqrt (v.z ^ 2) := (Real.sqrt_sq_eq_abs v.z).symm
    _ ≤ _ := by
        apply Real.sqrt_le_sqrt
        nlinarith [mul_self_nonneg v.x, mul_self_nonneg v.y]
  rw [Vector3f.normalize]
  simp only
  rw [abs_div, abs_of_pos hL, div_le_one hL]
  exact hzle

lemma gtr1_nonneg {ch g : ℝ} (hg0 : 0 < g) (hg1 : g < 1) (h0 : 0 ≤ ch)
    (h1 : ch ≤ 1) : 0 ≤ gtr1 ch g := by
  unfold gtr1
  have ha0 : 0 < g * g := mul_pos hg0 hg0
  have ha1 : g * g < 1 := by nlinarith
  have hnum : g * g - 1 < 0 := by linarith
  have hlog : Real.logb 10 (g * g) < 0 :=
    Real.logb_neg (by norm_num) ha0 ha1
  have hch2 : ch * ch ≤ 1 := by nlinarith
  have hfac : 0 < 1 + (g * g - 1) * ch * ch := by
    nlinarith [mul_nonneg (by linarith : (0:ℝ) ≤ 1 - ch * ch)
      (by linarith : (0:ℝ) ≤ 1 - g * g)]
  have hden : Real.pi * Real.logb 10 (g * g) *
      (1 + (g * g - 1) * ch * ch) < 0 := by
    have := Real.pi_pos
    have hneg : Real.pi * Real.logb 10 (g * g) < 0 :=
      mul_neg_of_pos_of_neg this hlog
    exact mul_neg_of_neg_of_pos hneg hfac
  exact le_of_lt (div_pos_iff.mpr (Or.inr ⟨hnum, hden⟩))

lemma smith_g_ggx_pos {c a : ℝ} (hc : 0 ≤ c) (ha : 0 < a) (ha1 : a < 1) :
    0 < smith_g_ggx c a := by
  unfold smith_g_ggx
  have ha2 : (0:ℝ) ≤ 1 - a * a := by nlinarith
  have hin : 0 < a * a + c * c - a * a * (c * c) := by
    nlinarith [mul_pos ha ha, mul_nonneg (mul_self_nonneg c) ha2]
  have hs : 0 < Real.sqrt (a * a + c * c - a * a * (c * c)) :=
    Real.sqrt_pos.mpr hin
  have h2 : 0 < c + Real.sqrt (a * a + c * c - a * a * (c * c)) := by
    linarith
  exact one_div_pos.mpr h2

lemma fr_schlick_nonneg {r0 c : ℝ} (h : 0 ≤ r0) : 0 ≤ fr_schlick r0 c := by
  unfold fr_schlick lerp
  obtain ⟨h0, h1⟩ := schlick_weight_mem c
  nlinarith

lemma pi_inv_nonneg : (0:ℝ) ≤ Real.pi⁻¹ := inv_nonneg.mpr Real.pi_pos.le

lemma diffuse_f_nonneg (d : DisneyDiffuse) (hr : d.r.NonNeg)
    (hsc : OptNonNeg d.sc_opt) (wo wi : Vector3f) : (d.f wo wi).NonNeg := by
  obtain ⟨hfo0, hfo1⟩ := schlick_weight_mem (abs_cos_theta wo)
  obtain ⟨hfi0, hfi1⟩ := schlick_weight_mem (abs_cos_theta wi)
  have hA : (0:ℝ) ≤ 1 - schlick_weight (abs_cos_theta wo) / 2 := by linarith
  have hB : (0:ℝ) ≤ 1 - schlick_weight (abs_cos_theta wi) / 2 := by linarith
  obtain ⟨hr0, hr1, hr2⟩ := hr
  cases hscv : d.sc_opt with
  | none =>
    simp only [DisneyDiffuse.f, hscv, smulSR_def, Spectrum.NonNeg]
    exact ⟨mul_nonneg4 hr0 pi_inv_nonneg hA hB,
      mul_nonneg4 hr1 pi_inv_nonneg hA hB,
      mul_nonneg4 hr2 pi_inv_nonneg hA hB⟩
  | some sc =>
    rw [hscv] at hsc
    obtain ⟨hs0, hs1, hs2⟩ := hsc
    simp only [DisneyDiffuse.f, hscv, mulS_def, smulSR_def, Spectrum.NonNeg]
    exact ⟨mul_nonneg5 hs0 hr0 pi_inv_nonneg hA hB,
      mul_nonneg5 hs1 hr1 pi_inv_nonneg hA hB,
      mul_nonneg5 hs2 hr2 pi_inv_nonneg hA hB⟩

lemma fakeSS_ss_nonneg {fo fi f90 S : ℝ} (hfo0 : 0 ≤ fo) (hfo1 : fo ≤ 1)
    (hfi0 : 0 ≤ fi) (hfi1 : fi ≤ 1) (hf90 : 0 ≤ f90) (hS0 : 0 < S)
    (hS2 : S ≤ 2) :
    0 ≤ 1.25 * (lerp fo 1 f90 * lerp fi 1 f90 * (1 / S - 0.5) + 0.5) := by
  have hfrac : (0:ℝ) ≤ 1 / S - 0.5 := by
    have hhalf : (0.5:ℝ) ≤ 1 / S := by
      rw [le_div_iff hS0]; linarith
    linarith
  have hlo : 0 ≤ lerp fo 1 f90 := by
    unfold lerp
    have := mul_nonneg hfo0 hf90
    nlinarith
  have hli : 0 ≤ lerp fi 1 f90 := by
    unfold lerp
    have := mul_nonneg hfi0 hf90
    nlinarith
  nlinarith [mul_nonneg (mul_nonneg hlo hli) hfrac]

lemma fakeSS_f_nonneg (d : DisneyFakeSS) (hr : d.r.NonNeg)
    (hrough : 0 ≤ d.roughness) (hsc : OptNonNeg d.sc_opt) (wo wi : Vector3f)
    (hwo : wo.IsUnit) (hwi : wi.IsUnit) (hz : wo.z ≠ 0 ∨ wi.z ≠ 0) :
    (d.f wo wi).NonNeg := by
  obtain ⟨hfo0, hfo1⟩ := schlick_weight_mem (abs_cos_theta wo)
  obtain ⟨hfi0, hfi1⟩ := schlick_weight_mem (abs_cos_theta wi)
  have hS0 : 0 < abs_cos_theta wo + abs_cos_theta wi := by
    unfold abs_cos_theta
    rcases hz with hz | hz
    · have := abs_pos.mpr hz
      have := abs_nonneg wi.z
      linarith
    · have := abs_pos.mpr hz
      have := abs_nonneg wo.z
      linarith
  have hS2 : abs_cos_theta wo + abs_cos_theta wi ≤ 2 := by
    have h1 := unit_abs_z_le_one hwo
    have h2 := unit_abs_z_le_one hwi
    unfold abs_cos_theta
    linarith
  obtain ⟨hr0, hr1, hr2⟩ := hr
  simp only [DisneyFakeSS.f]
  split_ifs with hcond
  · simp [Spectrum.NonNeg, Spectrum.const]
  · have hf90 : 0 ≤ vec3_dot_vec3 wi (Vector3f.add wi wo).normalize *
        vec3_dot_vec3 wi (Vector3f.add wi wo).normalize * d.roughness :=
      mul_nonneg (mul_self_nonneg _) hrough
    have hss := fakeSS_ss_nonneg hfo0 hfo1 hfi0 hfi1 hf90 hS0 hS2
    cases hscv : d.sc_opt with
    | none =>
      simp only [smulSR_def, Spectrum.NonNeg]
      exact ⟨mul_nonneg3 hr0 pi_inv_nonneg hss,
        mul_nonneg3 hr1 pi_inv_nonneg hss,
        mul_nonneg3 hr2 pi_inv_nonneg hss⟩
    | some sc =>
      rw [hscv] at hsc
      obtain ⟨hs0, hs1, hs2⟩ := hsc
      simp only [mulS_def, smulSR_def, Spectrum.NonNeg]
      exact ⟨mul_nonneg4 hs0 hr0 pi_inv_nonneg hss,
        mul_nonneg4 hs1 hr1 pi_inv_nonneg hss,
        mul_nonneg4 hs2 hr2 pi_inv_nonneg hss⟩

lemma retro_factor_nonneg {fo fi rr : ℝ} (hfo0 : 0 ≤ fo) (hfo1 : fo ≤ 1)
    (hfi0 : 0 ≤ fi) (hfi1 : fi ≤ 1) (hrr : 0 ≤ rr) :
    0 ≤ fo + fi + fo * fi * (rr - 1) := by
  nlinarith [mul_nonneg (mul_nonneg hfo0 hfi0) hrr,
    mul_le_of_le_one_right hfo0 hfi1]

lemma retro_f_nonneg (d : DisneyRetro) (hr : d.r.NonNeg)
    (hrough : 0 ≤ d.roughness) (hsc : OptNonNeg d.sc_opt) (wo wi : Vector3f) :
    (d.f wo wi).NonNeg := by
  obtain ⟨hfo0, hfo1⟩ := schlick_weight_mem (abs_cos_theta wo)
  obtain ⟨hfi0, hfi1⟩ := schlick_weight_mem (abs_cos_theta wi)
  obtain ⟨hr0, hr1, hr2⟩ := hr
  simp only [DisneyRetro.f]
  split_ifs with hcond
  · simp [Spectrum.NonNeg, Spectrum.const]
  · have hrr : 0 ≤ 2 * d.roughness *
        vec3_dot_vec3 wi (Vector3f.add wi wo).normalize *
        vec3_dot_vec3 wi (Vector3f.add wi wo).normalize := by
      rw [mul_assoc]
      exact mul_nonneg (by linarith) (mul_self_nonneg _)
    have hG := retro_factor_nonneg hfo0 hfo1 hfi0 hfi1 hrr
    cases hscv : d.sc_opt with
    | none =>
      simp only [smulSR_def, Spectrum.NonNeg]
      exact ⟨mul_nonneg4 hr0 pi_inv_nonneg hrr hG,
        mul_nonneg4 hr1 pi_inv_nonneg hrr hG,
        mul_nonneg4 hr2 pi_inv_nonneg hrr hG⟩
    | some sc =>
      rw [hscv] at hsc
      obtain ⟨hs0, hs1, hs2⟩ := hsc
      simp only [mulS_def, smulSR_def, Spectrum.NonNeg]
      exact ⟨mul_nonneg5 hs0 hr0 pi_inv_nonneg hrr hG,
        mul_nonneg5 hs1 hr1 pi_inv_nonneg hrr hG,
        mul_nonneg5 hs2 hr2 pi_inv_nonneg hrr hG⟩

lemma sheen_f_nonneg (d : DisneySheen) (hr : d.r.NonNeg)
    (hsc : OptNonNeg d.sc_opt) (wo wi : Vector3f) : (d.f wo wi).NonNeg := by
  obtain ⟨hr0, hr1, hr2⟩ := hr
  simp only [DisneySheen.f]
  split_ifs with hcond
  · simp [Spectrum.NonNeg, Spectrum.const]
  · have hsw := (schlick_weight_mem
      (vec3_dot_vec3 wi (Vector3f.add wi wo).normalize)).1
    cases hscv : d.sc_opt with
    | none =>
      simp only [smulSR_def, Spectrum.NonNeg]
      exact ⟨mul_nonneg hr0 hsw, mul_nonneg hr1 hsw, mul_nonneg hr2 hsw⟩
    | some sc =>
      rw [hscv] at hsc
      obtain ⟨hs0, hs1, hs2⟩ := hsc
      simp only [mulS_def, smulSR_def, Spectrum.NonNeg]
      exact ⟨mul_nonneg3 hs0 hr0 hsw, mul_nonneg3 hs1 hr1 hsw,
        mul_nonneg3 hs2 hr2 hsw⟩

lemma clearcoat_f_nonneg (d : DisneyClearCoat) (hw : 0 ≤ d.weight)
    (hg0 : 0 < d.gloss) (hg1 : d.gloss < 1) (hsc : OptNonNeg d.sc_opt)
    (wo wi : Vector3f) : (d.f wo wi).NonNeg := by
  simp only [DisneyClearCoat.f]
  split_ifs with hcond
  · simp [Spectrum.NonNeg, Spectrum.const]
  · have hch1 : |(Vector3f.add wi wo).normalize.z| ≤ 1 :=
      normalize_abs_z_le_one hcond
    have hdr : 0 ≤ gtr1 (abs_cos_theta (Vector3f.add wi wo).normalize)
        d.gloss :=
      gtr1_nonneg hg0 hg1 (abs_nonneg _) hch1
    have hgr : 0 ≤ smith_g_ggx (abs_cos_theta wo) 0.25 *
        smith_g_ggx (abs_cos_theta wi) 0.25 :=
      mul_nonneg
        (smith_g_ggx_pos (abs_nonneg _) (by norm_num) (by norm_num)).le
        (smith_g_ggx_pos (abs_nonneg _) (by norm_num) (by norm_num)).le
    have hfr : 0 ≤ fr_schlick 0.04
        (vec3_dot_vec3 wo (Vector3f.add wi wo).normalize) :=
      fr_schlick_nonneg (by norm_num)
    have hv : 0 ≤ d.weight * (smith_g_ggx (abs_cos_theta wo) 0.25 *
        smith_g_ggx (abs_cos_theta wi) 0.25) * fr_schlick 0.04
          (vec3_dot_vec3 wo (Vector3f.add wi wo).normalize) *
        gtr1 (abs_cos_theta (Vector3f.add wi wo).normalize) d.gloss / 4 :=
      div_nonneg (mul_nonneg4 hw hgr hfr hdr) (by norm_num)
    cases hscv : d.sc_opt with
    | none =>
      simp only [Spectrum.NonNeg, Spectrum.const]
      exact ⟨hv, hv, hv⟩
    | some sc =>
      rw [hscv] at hsc
      obtain ⟨hs0, hs1, hs2⟩ := hsc
      simp only [mulS_def, Spectrum.NonNeg, Spectrum.const]
      exact ⟨mul_nonneg hs0 hv, mul_nonneg hs1 hv, mul_nonneg hs2 hv⟩

/-- Counterexample to C5 as frozen: at the unit directions `wo = (1,0,0)`,
`wi = (0,1,0)` (both perpendicular to the shading normal), with the
non-negative weight spectrum `(1,1,1)` and non-negative roughness 4, the
FakeSubsurface lobe divides by `abs_cos_theta wo + abs_cos_theta wi = 0` and
its evaluation is not component-wise non-negative. -/
theorem c5_fakeSS_negative_at_grazing :
    Vector3f.IsUnit ⟨1, 0, 0⟩ ∧ Vector3f.IsUnit ⟨0, 1, 0⟩ ∧
      Spectrum.NonNeg ⟨1, 1, 1⟩ ∧ (0:ℝ) ≤ 4 ∧
      ¬ (DisneyFakeSS.f ⟨⟨1, 1, 1⟩, 4, none⟩ ⟨1, 0, 0⟩ ⟨0, 1, 0⟩).NonNeg := by
  refine ⟨by norm_num [Vector3f.IsUnit], by norm_num [Vector3f.IsUnit],
    by norm_num [Spectrum.NonNeg], by norm_num, ?_⟩
  have hs2 : Real.sqrt 2 * Real.sqrt 2 = 2 := Real.mul_self_sqrt (by norm_num)
  have hinv : (Real.sqrt 2)⁻¹ * (Real.sqrt 2)⁻¹ = 1 / 2 := by
    rw [← mul_inv, hs2]; norm_num
  have hnorm : (Vector3f.add ⟨0, 1, 0⟩ ⟨1, 0, 0⟩).normalize =
      ⟨1 / Real.sqrt 2, 1 / Real.sqrt 2, 0⟩ := by
    simp only [Vector3f.add, Vector3f.normalize, Vector3f.length,
      vec3_dot_vec3]
    norm_num
  intro hNN
  simp only [DisneyFakeSS.f] at hNN
  rw [if_neg (by norm_num [Vector3f.add])] at hNN
  rw [hnorm] at hNN
  simp only [vec3_dot_vec3, abs_cos_theta, schlick_weight, clamp_t, lerp,
    smulSR_def, Spectrum.NonNeg] at hNN
  norm_num [hinv] at hNN
  nlinarith [inv_pos.mpr Real.pi_pos, hNN]

/-- C5, as amended: every lobe built with a non-negative weight spectrum
(and, when present, non-negative uniform scale), non-negative roughness and
gloss in (0,1) evaluates to a component-wise non-negative spectrum at every
pair of unit directions, except that for FakeSubsurface the two directions
must not both be exactly perpendicular to the normal: at such pairs the code
divides by `abs_cos_theta wo + abs_cos_theta wi = 0` and its output is not
component-wise non-negative (see the counterexample above). -/
theorem c5_f_nonneg (r : Spectrum) (rough w g : ℝ) (scOpt : Option Spectrum)
    (wo wi : Vector3f) (hr : r.NonNeg) (hrough : 0 ≤ rough) (hw : 0 ≤ w)
    (hg0 : 0 < g) (hg1 : g < 1) (hsc : OptNonNeg scOpt) (hwo : wo.IsUnit)
    (hwi : wi.IsUnit) :
    (DisneyDiffuse.f ⟨r, scOpt⟩ wo wi).NonNeg ∧
      ((wo.z ≠ 0 ∨ wi.z ≠ 0) →
        (DisneyFakeSS.f ⟨r, rough, scOpt⟩ wo wi).NonNeg) ∧
      (DisneyRetro.f ⟨r, rough, scOpt⟩ wo wi).NonNeg ∧
      (DisneySheen.f ⟨r, scOpt⟩ wo wi).NonNeg ∧
      (DisneyClearCoat.f ⟨w, g, scOpt⟩ wo wi).NonNeg := by
  refine ⟨diffuse_f_nonneg _ hr hsc wo wi,
    fun hz => fakeSS_f_nonneg _ hr hrough hsc wo wi hwo hwi hz,
    retro_f_nonneg _ hr hrough hsc wo wi,
    sheen_f_nonneg _ hr hsc wo wi,
    clearcoat_f_nonneg _ hw hg0 hg1 hsc wo wi⟩

/-- Witness for C5 at `wo = wi = (0,0,1)`, unit weight spectrum, roughness
1/2, clearcoat weight 1 and gloss 1/2, no scale. -/
theorem c5_f_nonneg_witness :
    (DisneyDiffuse.f ⟨⟨1, 1, 1⟩, none⟩ ⟨0, 0, 1⟩ ⟨0, 0, 1⟩).NonNeg ∧
      (DisneyFakeSS.f ⟨⟨1, 1, 1⟩, 1/2, none⟩ ⟨0, 0, 1⟩ ⟨0, 0, 1⟩).NonNeg ∧
      (DisneyRetro.f ⟨⟨1, 1, 1⟩, 1/2, none⟩ ⟨0, 0, 1⟩ ⟨0, 0, 1⟩).NonNeg ∧
      (DisneySheen.f ⟨⟨1, 1, 1⟩, none⟩ ⟨0, 0, 1⟩ ⟨0, 0, 1⟩).NonNeg ∧
      (DisneyClearCoat.f ⟨1, 1/2, none⟩ ⟨0, 0, 1⟩ ⟨0, 0, 1⟩).NonNeg := by
  have h := c5_f_nonneg ⟨1, 1, 1⟩ (1/2) 1 (1/2) none ⟨0, 0, 1⟩ ⟨0, 0, 1⟩
    (by norm_num [Spectrum.NonNeg]) (by norm_num) (by norm_num)
    (by norm_num) (by norm_num) trivial
    (by norm_num [Vector3f.IsUnit]) (by norm_num [Vector3f.IsUnit])
  exact ⟨h.1, h.2.1 (Or.inl (by norm_num)), h.2.2.1, h.2.2.2.1, h.2.2.2.2⟩

/-! ## C3 -/

/-- With gloss 1/2 and `u = (1, 0)` the sampled half vector at `wo = +z` is
horizontal, so the reflected candidate direction is `(0, 0, -1)`. -/
lemma clearcoat_sampledWi_u10 (s : DisneyClearCoat) (hg : s.gloss = 1/2) :
    s.sampledWi ⟨0, 0, 1⟩ ⟨1, 0⟩ = ⟨0, 0, -1⟩ := by
  simp only [DisneyClearCoat.sampledWi, DisneyClearCoat.sampledWh, hg,
    spherical_direction, vec3_same_hemisphere_vec3, reflect,
    vec3_dot_vec3, Vector3f.add, Vector3f.neg, Vector3f.smul]
  norm_num [Real.rpow_zero, Real.sqrt_zero, Real.sqrt_one, Real.cos_zero,
    Real.sin_zero]

/-- With gloss 1/2 and `u = (0, 0)` the sampled half vector at `wo = +z` is
`+z` itself, so the reflected candidate direction is again `+z`. -/
lemma clearcoat_sampledWi_u00 (s : DisneyClearCoat) (hg : s.gloss = 1/2) :
    s.sampledWi ⟨0, 0, 1⟩ ⟨0, 0⟩ = ⟨0, 0, 1⟩ := by
  simp only [DisneyClearCoat.sampledWi, DisneyClearCoat.sampledWh, hg,
    spherical_direction, vec3_same_hemisphere_vec3, reflect,
    vec3_dot_vec3, Vector3f.add, Vector3f.neg, Vector3f.smul]
  norm_num [Real.rpow_one, Real.sqrt_one, Real.cos_zero, Real.sin_zero]

/-- Counterexample to C3: at `wo = (0,0,1)`, `u = (1,0)`, gloss 1/2, with the
incoming `pdf` location holding 5, the sampled candidate `(0,0,-1)` is not in
`wo`'s hemisphere and `sample_f` returns the zero spectrum but leaves the
`pdf` output at 5 — it is not set to 0. -/
theorem c3_rejection_pdf_not_written :
    (DisneyClearCoat.mk 1 (1/2) none).sample_f ⟨0, 0, 1⟩ ⟨0, 0, 0⟩ ⟨1, 0⟩ 5 =
        (Spectrum.const 0, ⟨0, 0, -1⟩, 5) ∧
      ¬ vec3_same_hemisphere_vec3 (⟨0, 0, 1⟩ : Vector3f) ⟨0, 0, -1⟩ ∧
      (5:ℝ) ≠ 0 := by
  have hwi := clearcoat_sampledWi_u10 (DisneyClearCoat.mk 1 (1/2) none) rfl
  refine ⟨?_, by norm_num [vec3_same_hemisphere_vec3], by norm_num⟩
  rw [DisneyClearCoat.sample_f, if_neg (by norm_num), hwi,
    if_pos (by norm_num [vec3_same_hemisphere_vec3])]

/-- C3 as amended: when the candidate `wi` produced by
`DisneyClearCoat::sample_f` is not in the same hemisphere as `wo`, the
function returns the zero spectrum and leaves the `pdf` out-parameter
unmodified (the caller's previous value persists); it is not written to 0. -/
theorem c3_amended_rejection (d : DisneyClearCoat) (wo wi0 : Vector3f)
    (u : Point2f) (p0 : ℝ) (hwo : wo.z ≠ 0)
    (hrej : ¬ vec3_same_hemisphere_vec3 wo (d.sampledWi wo u)) :
    d.sample_f wo wi0 u p0 = (Spectrum.const 0, d.sampledWi wo u, p0) := by
  rw [DisneyClearCoat.sample_f, if_neg hwo, if_pos hrej]

/-- Witness for the amended C3: the concrete rejection event of the
counterexample, with the `pdf` location holding 7. -/
theorem c3_amended_rejection_witness :
    (DisneyClearCoat.mk 1 (1/2) none).sample_f ⟨0, 0, 1⟩ ⟨0, 0, 0⟩ ⟨1, 0⟩ 7 =
      (Spectrum.const 0, ⟨0, 0, -1⟩, 7) := by
  have hwi := clearcoat_sampledWi_u10 (DisneyClearCoat.mk 1 (1/2) none) rfl
  have happ := c3_amended_rejection (DisneyClearCoat.mk 1 (1/2) none)
    ⟨0, 0, 1⟩ ⟨0, 0, 0⟩ ⟨1, 0⟩ 7 (by norm_num)
    (by rw [hwi]; norm_num [vec3_same_hemisphere_vec3])
  rw [hwi] at happ
  exact happ

/-! ## C2 -/

/-- `DisneyClearCoat::f` applies the optional scale once: with `Some sc` it
returns `sc` times the unscaled evaluation. -/
lemma clearcoat_f_scale (w g : ℝ) (sc : Spectrum) (wo wi : Vector3f) :
    (DisneyClearCoat.mk w g (some sc)).f wo wi =
      sc * (DisneyClearCoat.mk w g none).f wo wi := by
  simp only [DisneyClearCoat.f]
  split_ifs with hcond
  · simp [mulS_def, Spectrum.const]
  · rfl

/-- At `wo = wi = (0,0,1)` the unscaled clearcoat lobe of weight 1 and gloss
1/2 evaluates to the constant spectrum `gtr1(1, 1/2) / 400`. -/
lemma clearcoat_f_up_eval :
    (DisneyClearCoat.mk 1 (1/2) none).f ⟨0, 0, 1⟩ ⟨0, 0, 1⟩ =
      Spectrum.const (gtr1 1 (1/2) / 400) := by
  have h4 : Real.sqrt (4:ℝ) = 2 := by
    rw [show (4:ℝ) = 2 ^ 2 by norm_num,
      Real.sqrt_sq (by norm_num : (0:ℝ) ≤ 2)]
  have hnorm : (Vector3f.add ⟨0, 0, 1⟩ ⟨0, 0, 1⟩).normalize =
      (⟨0, 0, 1⟩ : Vector3f) := by
    simp only [Vector3f.add, Vector3f.normalize, Vector3f.length,
      vec3_dot_vec3]
    norm_num [h4]
  rw [DisneyClearCoat.f]
  rw [if_neg (by norm_num [Vector3f.add])]
  simp only [hnorm]
  simp only [vec3_dot_vec3, abs_cos_theta, fr_schlick, lerp,
    schlick_weight, clamp_t, smith_g_ggx]
  norm_num [Real.sqrt_one]
  ring_nf

lemma gtr1_up_ne_zero : gtr1 1 (1/2) ≠ 0 := by
  rw [gtr1]
  norm_num [Real.pi_ne_zero]

/-- C2 at the failing input: building the clearcoat lobe (weight 1, gloss
1/2) with uniform scale `(2,2,2)` and sampling at `wo = (0,0,1)`,
`u = (0,0)` yields the scale applied twice — the returned value equals
`sc * (sc * unscaled f)` — and therefore differs from `sc` times the result
of the factory-without-scale, contradicting the once-only scaling claim. -/
theorem c2_clearcoat_scale_applied_twice :
    ((DisneyClearCoat.mk 1 (1/2) (some (Spectrum.const 2))).sample_f
        ⟨0, 0, 1⟩ ⟨0, 0, 0⟩ ⟨0, 0⟩ 0).1 =
      Spectrum.const 2 * (Spectrum.const 2 *
        ((DisneyClearCoat.mk 1 (1/2) none).sample_f
          ⟨0, 0, 1⟩ ⟨0, 0, 0⟩ ⟨0, 0⟩ 0).1) ∧
    ((DisneyClearCoat.mk 1 (1/2) (some (Spectrum.const 2))).sample_f
        ⟨0, 0, 1⟩ ⟨0, 0, 0⟩ ⟨0, 0⟩ 0).1 ≠
      Spectrum.const 2 *
        ((DisneyClearCoat.mk 1 (1/2) none).sample_f
          ⟨0, 0, 1⟩ ⟨0, 0, 0⟩ ⟨0, 0⟩ 0).1 := by
  have hwiS := clearcoat_sampledWi_u00
    (DisneyClearCoat.mk 1 (1/2) (some (Spectrum.const 2))) rfl
  have hwiN := clearcoat_sampledWi_u00 (DisneyClearCoat.mk 1 (1/2) none) rfl
  have hS : ((DisneyClearCoat.mk 1 (1/2) (some (Spectrum.const 2))).sample_f
      ⟨0, 0, 1⟩ ⟨0, 0, 0⟩ ⟨0, 0⟩ 0).1 =
        Spectrum.const 2 *
          ((DisneyClearCoat.mk 1 (1/2) (some (Spectrum.const 2))).f
            ⟨0, 0, 1⟩ ⟨0, 0, 1⟩) := by
    rw [DisneyClearCoat.sample_f, if_neg (by norm_num), hwiS,
      if_neg (by norm_num [vec3_same_hemisphere_vec3])]
  have hN : ((DisneyClearCoat.mk 1 (1/2) none).sample_f
      ⟨0, 0, 1⟩ ⟨0, 0, 0⟩ ⟨0, 0⟩ 0).1 =
        (DisneyClearCoat.mk 1 (1/2) none).f ⟨0, 0, 1⟩ ⟨0, 0, 1⟩ := by
    rw [DisneyClearCoat.sample_f, if_neg (by norm_num), hwiN,
      if_neg (by norm_num [vec3_same_hemisphere_vec3])]
  have hsplit := clearcoat_f_scale 1 (1/2) (Spectrum.const 2)
    ⟨0, 0, 1⟩ ⟨0, 0, 1⟩
  constructor
  · rw [hS, hN, hsplit]
  · rw [hS, hN, hsplit, clearcoat_f_up_eval]
    have hb := gtr1_up_ne_zero
    simp only [mulS_def, Spectrum.const, Spectrum.mk.injEq, ne_eq]
    intro hcontra
    obtain ⟨h0, h1, h2⟩ := hcontra
    apply hb
    have : gtr1 1 (1/2) / 400 = 0 := by linarith
    have h400 : gtr1 1 (1/2) = 0 := by
      field_simp at this
      linarith
    exact h400

end RsPbrt
